import Mathlib

/-!
The Logfather: verification of the ingestion-to-query core.

Shallow embedding of the repository's log parser (`lib/logParser.js`),
search engine (`lib/searchEngine.js`) and the refresh aggregation logic
(`routes/api.js`), together with proofs settling the frozen claims.

Modelling conventions:
* JS strings are Lean `String`s; character classes (`\w`, whitespace,
  `toLowerCase`) are modelled over their ASCII behaviour.
* JS numbers used as timestamps are modelled as `Int` (epoch milliseconds).
* `JSON.parse`, `new Date(string)` and the regex timestamp scans are
  implementation-defined in ways irrelevant to the claims; they are
  supplied as oracle functions in a `ParseEnv`, and every theorem about the
  parser quantifies over the oracle.
* JS exceptions are the `Option.none` branch of the corresponding oracle;
  the code under verification catches all of them internally.
-/

namespace Logfather

/-- JS `\w` character class: `[A-Za-z0-9_]` (ASCII fragment). -/
def isWordChar (c : Char) : Bool :=
  c.isAlpha || c.isDigit || c = '_'

/-- JS `String.prototype.toLowerCase` (ASCII fragment). -/
def toLowerStr (s : String) : String :=
  String.mk (s.toList.map Char.toLower)

/-- JS `String.prototype.trim` (ASCII whitespace fragment). -/
def jsTrim (s : String) : String :=
  String.mk (((s.toList.dropWhile Char.isWhitespace).reverse.dropWhile
    Char.isWhitespace).reverse)

/-- Split a character list at every separator character selected by `P`,
keeping (possibly empty) chunks — the behaviour of a JS `split` on a
single-character class. -/
def splitWhenAux (P : Char → Bool) : List Char → List Char → List (List Char)
  | [], acc => [acc.reverse]
  | c :: cs, acc =>
    if P c then acc.reverse :: splitWhenAux P cs []
    else splitWhenAux P cs (c :: acc)

/-- JS `String.prototype.split` on one separator character. -/
def splitOnChar (sep : Char) (s : String) : List String :=
  (splitWhenAux (fun c => c = sep) s.toList []).map String.mk

/-- JS `String.prototype.includes`: substring containment test. -/
def strIncludes (s t : String) : Bool :=
  let ls := s.toList
  let lt := t.toList
  (List.range (ls.length + 1)).any fun i => ((ls.drop i).take lt.length) == lt

/-- Source `extractTerms` of `searchEngine.js`: split on `/\W+/`, keep terms of length
≥ 2, lower-case them.  Splitting a JS string on `/\W+/` and then dropping
short pieces gives the same result as splitting on every single non-word
character and dropping short pieces, which is what `splitWhenAux` does. -/
def extractTerms (text : String) : List String :=
  (((splitWhenAux (fun c => !isWordChar c) text.toList []).map
      (fun l => String.mk l)).filter
    (fun term => term.length ≥ 2)).map toLowerStr

/-- One parsed log line (`logParser.js` entry object).  All fields are
always assigned by the code, hence total types here. -/
structure LogEntry where
  id : String
  level : String
  message : String
  timestamp : Int
  sourceFile : String
  lineNumber : Nat
  raw : String
  isStructured : Bool
deriving DecidableEq, Repr, Inhabited

/-- Search engine state (`LogSearchEngine`): the entry snapshot plus the
inverted index.  The JS `Map` keeps insertion order, modelled as an
association list in insertion order; each `Set` of positions is a
duplicate-free list in insertion order.  `lastIndexTime` is display-only
metadata and is omitted. -/
structure EngineState where
  entries : List LogEntry
  indexedTerms : List (String × List Nat)
deriving Repr

/-- Fresh engine (`constructor`). -/
def emptyEngine : EngineState := ⟨[], []⟩

/-- Source `getSearchableText`: join message, level, sourceFile, raw with spaces,
lower-cased.  (The JS `|| ''` guards are identities on total strings.) -/
def getSearchableText (e : LogEntry) : String :=
  toLowerStr (e.message ++ " " ++ e.level ++ " " ++ e.sourceFile ++ " " ++ e.raw)

/-- Add a position to a term's set (`indexedTerms.get(term).add(index)`,
creating the `Set` first when absent, as in `indexEntry`). -/
def addPosition (m : List (String × List Nat)) (term : String) (i : Nat) :
    List (String × List Nat) :=
  if m.any (fun kv => kv.1 == term) then
    m.map (fun kv =>
      if kv.1 == term then (kv.1, if kv.2.contains i then kv.2 else kv.2 ++ [i])
      else kv)
  else m ++ [(term, [i])]

/-- Source `indexEntry`: record every extracted term of the entry at position `i`. -/
def indexEntry (m : List (String × List Nat)) (e : LogEntry) (i : Nat) :
    List (String × List Nat) :=
  (extractTerms (getSearchableText e)).foldl (fun m t => addPosition m t i) m

/-- Source `indexEntries`: replace the snapshot and rebuild the index from scratch. -/
def indexEntries (_st : EngineState) (entries : List LogEntry) : EngineState :=
  { entries := entries,
    indexedTerms := entries.enum.foldl (fun m p => indexEntry m p.2 p.1) [] }

/-- Source `clearIndex`. -/
def clearIndex (_st : EngineState) : EngineState := emptyEngine

/-- JS `Set.add` insertion into an insertion-ordered duplicate-free list. -/
def addIdx (acc : List Nat) (i : Nat) : List Nat :=
  if acc.contains i then acc else acc ++ [i]

/-- Add every position of a list into the accumulated match set. -/
def addAllIdx (acc : List Nat) (ixs : List Nat) : List Nat :=
  ixs.foldl addIdx acc

/-- Source `performTextSearch`: tokenize the query; with no tokens every entry
matches; otherwise, per token, add the positions of the exactly-matching
indexed term (`indexedTerms.has/get`) and of every indexed term containing
the token as a substring, OR-combined across tokens via one shared `Set`. -/
def performTextSearch (st : EngineState) (query : String) : List Nat :=
  let queryTerms := extractTerms (toLowerStr query)
  if queryTerms = [] then
    List.range st.entries.length
  else
    queryTerms.foldl (fun acc term =>
      let acc1 := match st.indexedTerms.find? (fun kv => kv.1 == term) with
        | some kv => addAllIdx acc kv.2
        | none => acc
      st.indexedTerms.foldl (fun a kv =>
        if strIncludes kv.1 term then addAllIdx a kv.2 else a) acc1) []

/-- Filter criteria handed to `applyFilters`.  `none` models a JS
null/absent filter; `some ""` models the falsy empty-string level.  The
date options carry the already-parsed `new Date(...)` value; an invalid
(`NaN`) date never excludes an entry in JS, matching `none` here. -/
structure Filters where
  level : Option String
  startDate : Option Int
  endDate : Option Int

/-- Source `applyFilters`: level exact match, inclusive date bounds; a falsy
filter is skipped.  (The source checks `entry.timestamp < startDate` /
`> endDate` and rejects; kept as the contrapositive bounds.) -/
def applyFilters (entries : List LogEntry) (f : Filters) : List LogEntry :=
  entries.filter fun e =>
    (match f.level with
     | some lv => lv == "" || e.level == lv
     | none => true) &&
    (match f.startDate with
     | some sd => decide (sd ≤ e.timestamp)
     | none => true) &&
    (match f.endDate with
     | some ed => decide (e.timestamp ≤ ed)
     | none => true)

/-- Dynamic value of `entry[sortBy]` in `sortResults`. -/
inductive JsVal where
  | dateV (ms : Int)
  | strV (s : String)
  | numV (n : Int)
  | boolV (b : Bool)
deriving DecidableEq, Repr

/-- Field access `a[sortBy]`; `none` is JS `undefined`. -/
def getField (e : LogEntry) (name : String) : Option JsVal :=
  if name = "id" then some (.strV e.id)
  else if name = "level" then some (.strV e.level)
  else if name = "message" then some (.strV e.message)
  else if name = "timestamp" then some (.dateV e.timestamp)
  else if name = "sourceFile" then some (.strV e.sourceFile)
  else if name = "lineNumber" then some (.numV e.lineNumber)
  else if name = "raw" then some (.strV e.raw)
  else if name = "isStructured" then some (.boolV e.isStructured)
  else none

/-- JS `String(value)` for the comparator's fallback branch.  The exact
rendering of a `Date` is irrelevant to every claim; only that equal values
render equally. -/
def jsToString : Option JsVal → String
  | none => "undefined"
  | some (.strV s) => s
  | some (.numV n) => toString n
  | some (.boolV b) => if b then "true" else "false"
  | some (.dateV ms) => "date " ++ toString ms

/-- Lexicographic code-point comparison of character lists. -/
def charListCompare : List Char → List Char → Int
  | [], [] => 0
  | [], _ :: _ => -1
  | _ :: _, [] => 1
  | a :: as, b :: bs =>
    if a.toNat < b.toNat then -1
    else if b.toNat < a.toNat then 1
    else charListCompare as bs

/-- JS `localeCompare`, modelled as code-unit comparison (ASCII agreement);
only its sign and reflexivity matter to the claims. -/
def localeCompareInt (a b : String) : Int :=
  charListCompare a.toList b.toList

/-- The comparator closure of `sortResults`: type-aware comparison times
the order multiplier. -/
def jsCompareBy (sortBy : String) (mult : Int) (a b : LogEntry) : Int :=
  match getField a sortBy, getField b sortBy with
  | some (.dateV x), some (.dateV y) => (x - y) * mult
  | some (.strV x), some (.strV y) => localeCompareInt x y * mult
  | some (.numV x), some (.numV y) => (x - y) * mult
  | va, vb => localeCompareInt (jsToString va) (jsToString vb) * mult

/-- Stable insertion placing `x` (originally before all of the list)
before the first element it does not compare after. -/
def jsInsert (c : α → α → Int) (x : α) : List α → List α
  | [] => [x]
  | y :: ys => if c x y ≤ 0 then x :: y :: ys else y :: jsInsert c x ys

/-- JS `Array.prototype.sort`: ECMAScript (ES2019+) requires a stable sort;
for a consistent comparator any stable sort produces the same list, so it
is modelled as stable insertion sort. -/
def jsStableSort (c : α → α → Int) : List α → List α
  | [] => []
  | x :: xs => jsInsert c x (jsStableSort c xs)

/-- Source `sortResults`. -/
def sortResults (entries : List LogEntry) (sortBy sortOrder : String) :
    List LogEntry :=
  let mult : Int := if sortOrder = "desc" then -1 else 1
  jsStableSort (jsCompareBy sortBy mult) entries

/-- Options of `search` with the source's defaults.  `page` is an `Int`
(JS callers pass arbitrary numbers); `pageSize` is kept a `Nat` — every
claim constrains `pageSize ≥ 1`, and `Math.ceil(totalCount/pageSize)`
agrees with Nat ceiling division there (`pageSize = 0`, which yields
`Infinity` in JS, is outside the modelled range). -/
structure SearchOptions where
  level : Option String := none
  startDate : Option Int := none
  endDate : Option Int := none
  sourceFile : Option String := none
  page : Int := 1
  pageSize : Nat := 100
  sortBy : String := "timestamp"
  sortOrder : String := "desc"

/-- The `pagination` block of a search result. -/
structure PaginationInfo where
  currentPage : Int
  totalPages : Nat
  totalCount : Nat
  pageSize : Nat
  hasNextPage : Bool
  hasPreviousPage : Bool
deriving DecidableEq, Repr

/-- A search result page (`searchMeta` is echo/display metadata, omitted). -/
structure SearchResult where
  entries : List LogEntry
  pagination : PaginationInfo
deriving DecidableEq, Repr

/-- ECMAScript `Array.prototype.slice` with signed index normalization. -/
def jsSlice (l : List α) (s e : Int) : List α :=
  let L : Int := l.length
  let s' : Int := if s < 0 then max (L + s) 0 else min s L
  let e' : Int := if e < 0 then max (L + e) 0 else min e L
  (l.drop s'.toNat).take (e' - s').toNat

/-- Text-search candidate list of `search`: `this.entries[index]` lookups;
an out-of-range index would be `undefined` in JS (and `applyFilters` would
then throw on it); the bounds invariant proved below shows indices are
always in range, so the `filterMap` drops nothing. -/
def textCandidates (st : EngineState) (query : String) : List LogEntry :=
  if jsTrim query ≠ "" then
    (performTextSearch st (jsTrim query)).filterMap (fun i => st.entries.get? i)
  else st.entries

/-- The `results` list of `search` just before pagination: text search,
then filters, then sort.  (`sourceFile` is destructured by `search` but
never handed to `applyFilters`, which tests only level and dates.) -/
def searchResults (st : EngineState) (query : String) (opts : SearchOptions) :
    List LogEntry :=
  sortResults
    (applyFilters (textCandidates st query)
      ⟨opts.level, opts.startDate, opts.endDate⟩)
    opts.sortBy opts.sortOrder

/-- Source `search`: run the pipeline, then slice out the requested page and
report pagination metadata. -/
def search (st : EngineState) (query : String) (opts : SearchOptions) :
    SearchResult :=
  let results := searchResults st query opts
  let totalCount := results.length
  let totalPages := (totalCount + opts.pageSize - 1) / opts.pageSize
  let startIndex : Int := (opts.page - 1) * opts.pageSize
  let endIndex : Int := min (startIndex + opts.pageSize) (totalCount : Int)
  { entries := jsSlice results startIndex endIndex,
    pagination :=
      { currentPage := opts.page,
        totalPages := totalPages,
        totalCount := totalCount,
        pageSize := opts.pageSize,
        hasNextPage := opts.page < (totalPages : Int),
        hasPreviousPage := opts.page > 1 } }

/-!
The line parser (`lib/logParser.js`).
-/

/-- The three probed properties of a `JSON.parse` result.  Field values
are modelled as strings (`none` = property absent/undefined); this covers
every behaviour the claims depend on. -/
structure JsonFields where
  level : Option String
  message : Option String
  timestamp : Option String

/-- Implementation-defined collaborators of the parser, supplied as
oracles; theorems quantify over them. -/
structure ParseEnv where
  /-- JS `JSON.parse` followed by property probing; `none` models a parse
  exception (the code catches it and falls back). -/
  jsonParse : String → Option JsonFields
  /-- JS `new Date(string)` in `parseTimestamp`: epoch ms, or `none` for
  an invalid date. -/
  dateOf : String → Option Int
  /-- Result of `inferTimestamp`'s first regex scan (ISO-8601-like
  pattern) combined with `Date` parsing of the match, when valid. -/
  findIsoTs : String → Option Int
  /-- Result of `inferTimestamp`'s second regex scan
  (`YYYY-MM-DD HH:MM:SS` pattern), when valid. -/
  findSimpleTs : String → Option Int
  /-- JS `new Date()`: the current time. -/
  now : Int

/-- JS truthiness of a (possibly absent) string property. -/
def truthyStr : Option String → Bool
  | some s => s != ""
  | none => false

/-- JS `parseInt` in base 10: optional leading whitespace and sign, then a
non-empty digit run; `none` models `NaN`. -/
def jsParseInt (s : String) : Option Int :=
  let cs := s.toList.dropWhile Char.isWhitespace
  let signVal : Int × List Char :=
    match cs with
    | '-' :: rest => (-1, rest)
    | '+' :: rest => (1, rest)
    | _ => (1, cs)
  let ds := signVal.2.takeWhile Char.isDigit
  if ds = [] then none
  else some (signVal.1 * ((ds.foldl (fun a c => a * 10 + (c.toNat - 48)) 0 : Nat) : Int))

/-- Source `normalizeLogLevel`: lower-case, trim, map the common aliases,
otherwise pass through. -/
def normalizeLogLevel (level : String) : String :=
  if level = "" then "unknown"
  else
    let normalized := jsTrim (toLowerStr level)
    if normalized = "err" then "error"
    else if normalized = "warn" then "warning"
    else if normalized = "info" then "info"
    else if normalized = "debug" then "debug"
    else if normalized = "trace" then "debug"
    else if normalized = "fatal" then "error"
    else normalized

/-- State of the ANSI-stripping scan for `/\u001b\[\d+m/g`: outside any
candidate match, after `ESC`, or after `ESC [` with the digits read so far. -/
inductive AnsiSt where
  | norm
  | esc
  | brk (ds : List Char)

/-- Characters buffered by a partially-matched ANSI escape. -/
def ansiPend : AnsiSt → List Char
  | .norm => []
  | .esc => ['\x1b']
  | .brk ds => '\x1b' :: '[' :: ds

/-- One step of the left-to-right regex-replace scan.  On a failed partial
match the buffer is flushed; a buffered run never contains `ESC` except at
its head, so restarting at the failing character is exactly the regex's
leftmost-match behaviour. -/
def ansiStep : (List Char × AnsiSt) → Char → (List Char × AnsiSt)
  | (out, .norm), c => if c = '\x1b' then (out, .esc) else (out ++ [c], .norm)
  | (out, .esc), c =>
    if c = '[' then (out, .brk [])
    else if c = '\x1b' then (out ++ ['\x1b'], .esc)
    else (out ++ ['\x1b', c], .norm)
  | (out, .brk ds), c =>
    if c.isDigit then (out, .brk (ds ++ [c]))
    else if c = 'm' && ds != [] then (out, .norm)
    else if c = '\x1b' then (out ++ ansiPend (.brk ds), .esc)
    else (out ++ ansiPend (.brk ds) ++ [c], .norm)

/-- JS `message.replace(/\u001b\[\d+m/g, '')` as a single left-to-right
scan. -/
def stripAnsi (l : List Char) : List Char :=
  let r := l.foldl ansiStep ([], .norm)
  r.1 ++ ansiPend r.2

/-- Source `cleanMessage`: strip ANSI colour codes, trim. -/
def cleanMessage (message : String) : String :=
  if message = "" then ""
  else jsTrim (String.mk (stripAnsi message.toList))

/-- JS `filePath.split('/').pop() || filePath` of `generateEntryId`. -/
def basenameOf (filePath : String) : String :=
  match (splitOnChar '/' filePath).getLast? with
  | some s => if s = "" then filePath else s
  | none => filePath

/-- Source `generateEntryId`. -/
def generateEntryId (filePath : String) (lineNumber : Nat) : String :=
  basenameOf filePath ++ ":" ++ toString lineNumber

/-- Source `parseTimestamp`: `new Date(string)`, else `parseInt` as Unix
seconds, else now. -/
def parseTimestamp (env : ParseEnv) (timestamp : String) : Int :=
  if timestamp = "" then env.now
  else
    match env.dateOf timestamp with
    | some d => d
    | none =>
      match jsParseInt timestamp with
      | some unixTime => unixTime * 1000
      | none => env.now

/-- Source `inferLogLevel`: first the source file path (the code tests the
whole `filePath` string), then the line content, else `unknown`. -/
def inferLogLevel (line filePath : String) : String :=
  if strIncludes filePath "error" then "error"
  else if strIncludes filePath "debug" then "debug"
  else
    let lowerLine := toLowerStr line
    if strIncludes lowerLine "error" || strIncludes lowerLine "err" then "error"
    else if strIncludes lowerLine "warn" then "warning"
    else if strIncludes lowerLine "info" then "info"
    else if strIncludes lowerLine "debug" then "debug"
    else "unknown"

/-- Source `inferTimestamp`: ISO-like scan, then simple-date scan, else
now (regex scans supplied by the environment). -/
def inferTimestamp (env : ParseEnv) (line : String) : Int :=
  match env.findIsoTs line with
  | some d => d
  | none =>
    match env.findSimpleTs line with
    | some d => d
    | none => env.now

/-- Source `createFallbackEntry`. -/
def createFallbackEntry (env : ParseEnv) (line filePath : String)
    (lineNumber : Nat) : LogEntry :=
  { id := generateEntryId filePath lineNumber,
    level := inferLogLevel line filePath,
    message := jsTrim line,
    timestamp := inferTimestamp env line,
    sourceFile := filePath,
    lineNumber := lineNumber,
    raw := line,
    isStructured := false }

/-- Source `parseLogLine`: try JSON (a thrown exception is the `none`
branch), require the three fields truthy, else fall back. -/
def parseLogLine (env : ParseEnv) (line filePath : String)
    (lineNumber : Nat) : LogEntry :=
  match env.jsonParse line with
  | none => createFallbackEntry env line filePath lineNumber
  | some parsed =>
    if truthyStr parsed.level && truthyStr parsed.message
        && truthyStr parsed.timestamp then
      { id := generateEntryId filePath lineNumber,
        level := normalizeLogLevel (parsed.level.getD ""),
        message := cleanMessage (parsed.message.getD ""),
        timestamp := parseTimestamp env (parsed.timestamp.getD ""),
        sourceFile := filePath,
        lineNumber := lineNumber,
        raw := line,
        isStructured := true }
    else createFallbackEntry env line filePath lineNumber

/-- Source `parseLogContent`: non-string/empty content gives `[]`; split
on newlines, drop blank lines, parse each remaining line at its 1-based
position.  (The source's `if (entry)` guard is always taken:
`parseLogLine` never returns null.) -/
def parseLogContent (env : ParseEnv) (fileContent filePath : String) :
    List LogEntry :=
  if fileContent = "" then []
  else
    let lines := (splitOnChar '\n' fileContent).filter
      (fun line => jsTrim line != "")
    lines.enum.map (fun p => parseLogLine env p.2 filePath (p.1 + 1))

/-- Source `loadLogs` of `routes/api.js`: parse every scanned file and
concatenate the entries in file order (the aggregate is then indexed).
File discovery and reading are I/O; the `(path, content)` list is a
parameter here. -/
def loadLogs (env : ParseEnv) (files : List (String × String)) :
    List LogEntry :=
  (files.map (fun f => parseLogContent env f.2 f.1)).flatten

/-!
Auxiliary state/claim-side definitions.
-/

/-- The index-mutating operations exposed by the engine. -/
inductive EngineOp where
  | indexOp (entries : List LogEntry)
  | clearOp

/-- Apply one operation to the engine state. -/
def applyOp (st : EngineState) : EngineOp → EngineState
  | .indexOp l => indexEntries st l
  | .clearOp => clearIndex st

/-- Engine state after a sequence of operations from a fresh engine. -/
def runOps (ops : List EngineOp) : EngineState :=
  ops.foldl applyOp emptyEngine

/-- Every position stored in the inverted index is a valid index into the
entry snapshot. -/
def IndexInBounds (st : EngineState) : Prop :=
  ∀ kv ∈ st.indexedTerms, ∀ i ∈ kv.2, i < st.entries.length

/-- The `LogEntry` field names `a[sortBy]` can resolve on. -/
def sortableFields : List String :=
  ["id", "level", "message", "timestamp", "sourceFile", "lineNumber",
    "raw", "isStructured"]

/-- Modelled from the spec: claim C6's wording of fallback level
inference, which reads the source file NAME — `inferLogLevel` in the
source reads the whole path instead.  Kept to state the difference. -/
def claimedNameBasedLevel (line filePath : String) : String :=
  let name := basenameOf filePath
  if strIncludes name "error" then "error"
  else if strIncludes name "debug" then "debug"
  else
    let lowerLine := toLowerStr line
    if strIncludes lowerLine "error" || strIncludes lowerLine "err" then "error"
    else if strIncludes lowerLine "warn" then "warning"
    else if strIncludes lowerLine "info" then "info"
    else if strIncludes lowerLine "debug" then "debug"
    else "unknown"

/-!
Concrete sample data used by counterexamples and witnesses.
-/

/-- A plain fallback-style entry from `debug.log`. -/
def wEntry : LogEntry :=
  ⟨"debug.log:1", "info", "hello", 5, "debug.log", 1, "hello", false⟩

/-- Snapshot position 0 of the tie-order scenario (message `zebra`). -/
def zebraEntry : LogEntry :=
  ⟨"z", "info", "zebra", 100, "x.log", 1, "", false⟩

/-- Snapshot position 1 of the tie-order scenario (message `apple`),
same timestamp as `zebraEntry`. -/
def appleEntry : LogEntry :=
  ⟨"p", "info", "apple", 100, "x.log", 2, "", false⟩

/-- Early-timestamp entry for the sort-field scenario. -/
def tsEarly : LogEntry :=
  ⟨"t1", "info", "mm", 100, "x.log", 1, "", false⟩

/-- Late-timestamp entry for the sort-field scenario. -/
def tsLate : LogEntry :=
  ⟨"t2", "info", "nn", 200, "x.log", 2, "", false⟩

/-- An entry whose sourceFile does not contain `payment`. -/
def srcEntry : LogEntry :=
  ⟨"e", "error", "boom", 50, "logs/app-error.log", 1, "boom", false⟩

/-- An entry matching the query token `error` (via its message). -/
def qEntryErr : LogEntry :=
  ⟨"q1", "info", "disk error", 10, "x.log", 1, "", false⟩

/-- An entry matching the query token `database` (via its message). -/
def qEntryDb : LogEntry :=
  ⟨"q2", "info", "database ok", 20, "x.log", 2, "", false⟩

/-- An entry none of whose indexed terms contains the letter `a`. -/
def noAEntry : LogEntry :=
  ⟨"n", "info", "zz", 10, "x.log", 1, "", false⟩

/-- A concrete parse environment: every oracle fails (plain-text lines),
current time 7. -/
def envW : ParseEnv :=
  ⟨fun _ => none, fun _ => none, fun _ => none, fun _ => none, 7⟩

/-!
Helper lemmas about the stable sort.
-/

theorem jsInsert_perm (c : α → α → Int) (x : α) (l : List α) :
    (jsInsert c x l).Perm (x :: l) := by
  induction l with
  | nil => simp [jsInsert]
  | cons y ys ih =>
    by_cases h : c x y ≤ 0
    · simp [jsInsert, h]
    · rw [jsInsert, if_neg h]
      exact (ih.cons y).trans (List.Perm.swap x y ys)

theorem jsStableSort_perm (c : α → α → Int) (l : List α) :
    (jsStableSort c l).Perm l := by
  induction l with
  | nil => exact List.Perm.refl _
  | cons x xs ih => exact (jsInsert_perm c x _).trans (ih.cons x)

theorem jsStableSort_length (c : α → α → Int) (l : List α) :
    (jsStableSort c l).length = l.length :=
  (jsStableSort_perm c l).length_eq

theorem sortResults_perm (l : List LogEntry) (sb so : String) :
    (sortResults l sb so).Perm l :=
  jsStableSort_perm _ l

theorem jsInsert_filter (c : α → α → Int) (P : α → Bool) (x : α) (l : List α)
    (hP : ∀ y, P x = true → P y = true → c x y ≤ 0) :
    (jsInsert c x l).filter P
      = if P x then x :: l.filter P else l.filter P := by
  induction l with
  | nil => by_cases h : P x <;> simp [jsInsert, h]
  | cons y ys ih =>
    by_cases hxy : c x y ≤ 0
    · rw [jsInsert, if_pos hxy]
      by_cases h : P x <;> simp [List.filter_cons, h]
    · rw [jsInsert, if_neg hxy, List.filter_cons]
      by_cases hy : P y
      · have hx : P x = false := by
          cases hPx : P x with
          | false => rfl
          | true => exact absurd (hP y hPx hy) hxy
        simp [hy, hx, ih, List.filter_cons]
      · simp [hy, ih, List.filter_cons]

theorem jsStableSort_filter (c : α → α → Int) (P : α → Bool) (l : List α)
    (hP : ∀ x y, P x = true → P y = true → c x y ≤ 0) :
    (jsStableSort c l).filter P = l.filter P := by
  induction l with
  | nil => rfl
  | cons x xs ih =>
    rw [jsStableSort, jsInsert_filter c P x _ (fun y => hP x y),
      List.filter_cons]
    by_cases h : P x <;> simp [h, ih]

theorem charListCompare_self : ∀ l : List Char, charListCompare l l = 0 := by
  intro l
  induction l with
  | nil => rfl
  | cons a as ih =>
    unfold charListCompare
    rw [if_neg (by omega), if_neg (by omega)]
    exact ih

theorem localeCompareInt_self (s : String) : localeCompareInt s s = 0 :=
  charListCompare_self s.toList

theorem jsCompareBy_self_zero (sb : String) (m : Int) (a b : LogEntry)
    (h : getField a sb = getField b sb) : jsCompareBy sb m a b = 0 := by
  unfold jsCompareBy
  rw [h]
  cases hb : getField b sb with
  | none => simp [localeCompareInt_self]
  | some v => cases v <;> simp [localeCompareInt_self]

theorem jsStableSort_of_all_zero (c : α → α → Int)
    (h : ∀ a b, c a b = 0) (l : List α) : jsStableSort c l = l := by
  induction l with
  | nil => rfl
  | cons x xs ih =>
    rw [jsStableSort, ih]
    cases xs with
    | nil => rfl
    | cons y ys => rw [jsInsert, if_pos (by rw [h x y])]

/-!
Helper lemmas about pagination.
-/

theorem take_min_len (l : List α) (a : Nat) :
    l.take (min a l.length) = l.take a := by
  rw [List.take_eq_take]
  omega

theorem join_pages (ps : Nat) (hps : 1 ≤ ps) :
    ∀ (n : Nat) (l : List α), l.length = n →
      ((List.range ((l.length + ps - 1) / ps)).map
        (fun p => (l.drop (p * ps)).take ps)).flatten = l := by
  intro n
  induction n using Nat.strong_induction_on with
  | _ n ih =>
    intro l hl
    cases l with
    | nil => simp
    | cons x xs =>
      have hlen : 1 ≤ (x :: xs).length := by simp
      have hdl : ((x :: xs).drop ps).length = (x :: xs).length - ps :=
        List.length_drop ps _
      have hcount : ((x :: xs).length + ps - 1) / ps
          = (((x :: xs).drop ps).length + ps - 1) / ps + 1 := by
        rw [hdl]
        rcases Nat.lt_or_ge ps (x :: xs).length with h | h
        · have e1 : (x :: xs).length + ps - 1
              = ((x :: xs).length - ps + ps - 1) + ps := by omega
          have e2 : (x :: xs).length - ps + ps - 1
              = ((x :: xs).length - ps - 1) + ps := by omega
          rw [e1, Nat.add_div_right _ (by omega), e2,
            Nat.add_div_right _ (by omega)]
        · have e1 : (x :: xs).length + ps - 1 = ((x :: xs).length - 1) + ps := by
            omega
          have e2 : (x :: xs).length - ps = 0 := by omega
          rw [e1, Nat.add_div_right _ (by omega), e2,
            Nat.div_eq_of_lt (by omega), Nat.div_eq_of_lt (by omega)]
      rw [hcount, List.range_succ_eq_map, List.map_cons, List.flatten_cons,
        Nat.zero_mul, List.drop_zero, List.map_map]
      have hfun : ((fun p => ((x :: xs).drop (p * ps)).take ps) ∘ Nat.succ)
          = fun p => (((x :: xs).drop ps).drop (p * ps)).take ps := by
        funext p
        simp only [Function.comp_apply, List.drop_drop, Nat.succ_mul,
          Nat.add_comm]
      rw [hfun, ih (((x :: xs).drop ps).length) (by omega) _ rfl,
        List.take_append_drop]

/-!
Helper lemmas about slicing.
-/

theorem jsSlice_natIdx (l : List α) (a b : Nat) :
    jsSlice l (a : Int) (b : Int) = (l.drop a).take (b - a) := by
  simp only [jsSlice]
  rw [if_neg (by omega : ¬((a : Int) < 0)),
    if_neg (by omega : ¬((b : Int) < 0)),
    show min (a : Int) (l.length : Int) = ((min a l.length : Nat) : Int) by
      rw [Nat.cast_min],
    show min (b : Int) (l.length : Int) = ((min b l.length : Nat) : Int) by
      rw [Nat.cast_min],
    Int.toNat_natCast, Int.toNat_sub]
  rcases Nat.lt_or_ge a l.length with ha | ha
  · have hmina : min a l.length = a := Nat.min_eq_left (le_of_lt ha)
    rcases Nat.lt_or_ge b l.length with hb | hb
    · rw [hmina, Nat.min_eq_left (le_of_lt hb)]
    · rw [hmina, Nat.min_eq_right hb, List.take_eq_take, List.length_drop]
      omega
  · rw [Nat.min_eq_right ha,
      List.drop_eq_nil_of_le (le_refl _), List.drop_eq_nil_of_le ha]
    simp

theorem ceil_mul_ge (L ps : Nat) (hps : 1 ≤ ps) :
    L ≤ ((L + ps - 1) / ps) * ps := by
  obtain ⟨r, hr, hdm⟩ : ∃ r, r < ps ∧
      ((L + ps - 1) / ps) * ps + r = L + ps - 1 :=
    ⟨(L + ps - 1) % ps, Nat.mod_lt _ (by omega), by
      rw [Nat.mul_comm]; exact Nat.div_add_mod _ _⟩
  generalize ((L + ps - 1) / ps) * ps = A at hdm ⊢
  omega

theorem jsSlice_ge_length (l : List α) (s e : Int)
    (hs : (l.length : Int) ≤ s) : jsSlice l s e = [] := by
  simp only [jsSlice]
  rw [if_neg (show ¬ s < 0 by omega), min_eq_right hs, Int.toNat_natCast,
    List.drop_length, List.take_nil]

/-!
Helper lemmas about `search`.
-/

theorem searchResults_page_indep (st : EngineState) (q : String)
    (opts : SearchOptions) (x : Int) :
    searchResults st q { opts with page := x } = searchResults st q opts :=
  rfl

theorem search_page_entries (st : EngineState) (q : String)
    (opts : SearchOptions) (p : Nat) :
    (search st q { opts with page := (p : Int) + 1 }).entries
      = ((searchResults st q opts).drop (p * opts.pageSize)).take
          opts.pageSize := by
  have he : (search st q { opts with page := (p : Int) + 1 }).entries
      = jsSlice (searchResults st q opts)
          (((p : Int) + 1 - 1) * (opts.pageSize : Int))
          (min (((p : Int) + 1 - 1) * (opts.pageSize : Int) + opts.pageSize)
            ((searchResults st q opts).length : Int)) := rfl
  rw [he,
    show ((p : Int) + 1 - 1) * (opts.pageSize : Int)
        = ((p * opts.pageSize : Nat) : Int) by push_cast; ring,
    show ((p * opts.pageSize : Nat) : Int) + (opts.pageSize : Int)
        = ((p * opts.pageSize + opts.pageSize : Nat) : Int) by push_cast; ring,
    show min ((p * opts.pageSize + opts.pageSize : Nat) : Int)
          ((searchResults st q opts).length : Int)
        = ((min (p * opts.pageSize + opts.pageSize)
            (searchResults st q opts).length : Nat) : Int) by rw [Nat.cast_min],
    jsSlice_natIdx, List.take_eq_take, List.length_drop]
  omega

theorem search_beyond_entries (st : EngineState) (q : String)
    (opts : SearchOptions) (hps : 1 ≤ opts.pageSize)
    (hpg : ((search st q opts).pagination.totalPages : Int) < opts.page) :
    (search st q opts).entries = [] := by
  have htp : (search st q opts).pagination.totalPages
      = ((searchResults st q opts).length + opts.pageSize - 1)
          / opts.pageSize := rfl
  rw [htp] at hpg
  have he : (search st q opts).entries
      = jsSlice (searchResults st q opts)
          ((opts.page - 1) * (opts.pageSize : Int))
          (min ((opts.page - 1) * (opts.pageSize : Int) + opts.pageSize)
            ((searchResults st q opts).length : Int)) := rfl
  rw [he]
  apply jsSlice_ge_length
  have h1 := ceil_mul_ge (searchResults st q opts).length opts.pageSize hps
  have h2 : ((((searchResults st q opts).length + opts.pageSize - 1)
      / opts.pageSize : Nat) : Int) ≤ opts.page - 1 := by omega
  calc ((searchResults st q opts).length : Int)
      ≤ (((((searchResults st q opts).length + opts.pageSize - 1)
          / opts.pageSize) * opts.pageSize : Nat) : Int) := by exact_mod_cast h1
    _ = ((((searchResults st q opts).length + opts.pageSize - 1)
          / opts.pageSize : Nat) : Int) * (opts.pageSize : Int) := by
        push_cast; ring
    _ ≤ (opts.page - 1) * (opts.pageSize : Int) :=
        mul_le_mul_of_nonneg_right h2 (by positivity)

theorem applyFilters_all_absent (l : List LogEntry) :
    applyFilters l ⟨none, none, none⟩ = l := by
  simp [applyFilters]

theorem searchResults_empty_query (st : EngineState) (q : String)
    (opts : SearchOptions) (hq : jsTrim q = "") :
    searchResults st q opts
      = sortResults (applyFilters st.entries
          ⟨opts.level, opts.startDate, opts.endDate⟩)
          opts.sortBy opts.sortOrder := by
  unfold searchResults textCandidates
  rw [if_neg (by simp [hq])]

/-- C1: after `indexEntries(E)`, a `search` with empty (or
whitespace-only) query text and no level/startDate/endDate filters
returns, over the union of all pages `1..totalPages` (each of size
`pageSize ≥ 1`), exactly the entries of `E` as a multiset: the pagination
slices partition the full sorted result, which is a permutation of `E`. -/
theorem indexed_roundtrip_empty_query
    (st0 : EngineState) (E : List LogEntry) (q : String)
    (opts : SearchOptions) (hq : jsTrim q = "") (hps : 1 ≤ opts.pageSize)
    (hlev : opts.level = none) (hsd : opts.startDate = none)
    (hed : opts.endDate = none) :
    (((List.range
        (search (indexEntries st0 E) q opts).pagination.totalPages).map
      (fun p : Nat =>
        (search (indexEntries st0 E) q
          { opts with page := (p : Int) + 1 }).entries)).flatten).Perm E := by
  have hpageE : ∀ p : Nat,
      (search (indexEntries st0 E) q
          { opts with page := (p : Int) + 1 }).entries
        = ((searchResults (indexEntries st0 E) q opts).drop
            (p * opts.pageSize)).take opts.pageSize :=
    fun p => search_page_entries (indexEntries st0 E) q opts p
  simp only [hpageE]
  rw [show (search (indexEntries st0 E) q opts).pagination.totalPages
      = ((searchResults (indexEntries st0 E) q opts).length
          + opts.pageSize - 1) / opts.pageSize from rfl,
    join_pages opts.pageSize hps
      (searchResults (indexEntries st0 E) q opts).length
      (searchResults (indexEntries st0 E) q opts) rfl,
    searchResults_empty_query _ q opts hq, hlev, hsd, hed,
    applyFilters_all_absent]
  exact sortResults_perm _ opts.sortBy opts.sortOrder

/-- Witness for C1: one indexed entry, empty query, page size 1. -/
theorem indexed_roundtrip_empty_query_witness :
    (jsTrim "" = "" ∧ 1 ≤ 1) ∧
    (((List.range
        (search (indexEntries emptyEngine [wEntry]) ""
          { pageSize := 1 }).pagination.totalPages).map
      (fun p : Nat =>
        (search (indexEntries emptyEngine [wEntry]) ""
          { ({ pageSize := 1 } : SearchOptions) with
              page := (p : Int) + 1 }).entries)).flatten).Perm [wEntry] :=
  ⟨⟨by decide, le_refl 1⟩,
    indexed_roundtrip_empty_query emptyEngine [wEntry] "" { pageSize := 1 }
      (by decide) (le_refl 1) rfl rfl rfl⟩

/-- C2: for every indexed state, query and filters, and every
`pageSize ≥ 1` and `page ≥ 1`: `totalCount` is the filtered result count
before slicing, `totalPages = ceil(totalCount / pageSize)` (as Nat
ceiling division), the page-entry lengths over pages `1..totalPages` sum
to `totalCount`, and a page beyond `totalPages` yields an empty entries
list while reporting the same `totalCount`/`totalPages` (no error). -/
theorem search_pagination_invariant (st : EngineState) (q : String)
    (opts : SearchOptions) (hps : 1 ≤ opts.pageSize) (_hpg : 1 ≤ opts.page) :
    (search st q opts).pagination.totalCount
        = (applyFilters (textCandidates st q)
            ⟨opts.level, opts.startDate, opts.endDate⟩).length
    ∧ (search st q opts).pagination.totalPages
        = ((search st q opts).pagination.totalCount + opts.pageSize - 1)
            / opts.pageSize
    ∧ ((List.range (search st q opts).pagination.totalPages).map
          (fun p : Nat => (search st q
            { opts with page := (p : Int) + 1 }).entries.length)).sum
        = (search st q opts).pagination.totalCount
    ∧ (((search st q opts).pagination.totalPages : Int) < opts.page →
        (search st q opts).entries = []
        ∧ (search st q opts).pagination.totalCount
            = (search st q { opts with page := 1 }).pagination.totalCount
        ∧ (search st q opts).pagination.totalPages
            = (search st q { opts with page := 1 }).pagination.totalPages) := by
  refine ⟨?_, rfl, ?_,
    fun h => ⟨search_beyond_entries st q opts hps h, rfl, rfl⟩⟩
  · show (searchResults st q opts).length = _
    exact (sortResults_perm _ _ _).length_eq
  · have hpg2 : ∀ p : Nat,
        (search st q { opts with page := (p : Int) + 1 }).entries
          = ((searchResults st q opts).drop
              (p * opts.pageSize)).take opts.pageSize :=
      fun p => search_page_entries st q opts p
    simp only [hpg2]
    have hjp := join_pages opts.pageSize hps (searchResults st q opts).length
      (searchResults st q opts) rfl
    have hlen := congrArg List.length hjp
    rw [List.length_flatten, List.map_map] at hlen
    exact hlen

/-- Witness for C2: the beyond-range page of a one-entry search. -/
theorem search_pagination_invariant_witness :
    ((1 : Nat) ≤ 1 ∧ (1 : Int) ≤ 5) ∧
    (search (indexEntries emptyEngine [wEntry]) ""
      { page := 5, pageSize := 1 }).entries = [] := by
  refine ⟨⟨le_refl 1, by omega⟩, ?_⟩
  refine ((search_pagination_invariant (indexEntries emptyEngine [wEntry]) ""
    { page := 5, pageSize := 1 } (le_refl 1) (by decide)).2.2.2 ?_).1
  decide

/-!
Membership characterization of `performTextSearch`.
-/

theorem strIncludes_self (s : String) : strIncludes s s = true := by
  simp only [strIncludes]
  refine List.any_eq_true.mpr ⟨0, List.mem_range.mpr (by omega), ?_⟩
  simp

theorem mem_addIdx {acc : List Nat} {i j : Nat} :
    j ∈ addIdx acc i ↔ j ∈ acc ∨ j = i := by
  unfold addIdx
  by_cases h : acc.contains i
  · rw [if_pos h]
    have hi : i ∈ acc := List.elem_iff.mp h
    constructor
    · exact Or.inl
    · rintro (hj | rfl)
      · exact hj
      · exact hi
  · rw [if_neg h]
    simp [List.mem_append]

theorem mem_addAllIdx {ixs : List Nat} : ∀ {acc : List Nat} {j : Nat},
    j ∈ addAllIdx acc ixs ↔ j ∈ acc ∨ j ∈ ixs := by
  induction ixs with
  | nil => intro acc j; simp [addAllIdx]
  | cons i rest ih =>
    intro acc j
    show j ∈ addAllIdx (addIdx acc i) rest ↔ _
    rw [ih, mem_addIdx]
    simp only [List.mem_cons]
    tauto

theorem mem_substrLoop (term : String) (j : Nat) :
    ∀ (m : List (String × List Nat)) (acc : List Nat),
    (j ∈ m.foldl (fun a kv =>
        if strIncludes kv.1 term then addAllIdx a kv.2 else a) acc
      ↔ j ∈ acc
        ∨ ∃ kv, kv ∈ m ∧ strIncludes kv.1 term = true ∧ j ∈ kv.2) := by
  intro m
  induction m with
  | nil => intro acc; simp
  | cons kv rest ih =>
    intro acc
    rw [List.foldl_cons, ih]
    by_cases h : strIncludes kv.1 term
    · rw [if_pos h, mem_addAllIdx]
      constructor
      · rintro ((hj | hj) | ⟨kv2, h2, h3, h4⟩)
        · exact Or.inl hj
        · exact Or.inr ⟨kv, List.mem_cons_self _ _, h, hj⟩
        · exact Or.inr ⟨kv2, List.mem_cons_of_mem _ h2, h3, h4⟩
      · rintro (hj | ⟨kv2, h2, h3, h4⟩)
        · exact Or.inl (Or.inl hj)
        · rcases List.mem_cons.mp h2 with rfl | h2
          · exact Or.inl (Or.inr h4)
          · exact Or.inr ⟨kv2, h2, h3, h4⟩
    · rw [if_neg h]
      constructor
      · rintro (hj | ⟨kv2, h2, h3, h4⟩)
        · exact Or.inl hj
        · exact Or.inr ⟨kv2, List.mem_cons_of_mem _ h2, h3, h4⟩
      · rintro (hj | ⟨kv2, h2, h3, h4⟩)
        · exact Or.inl hj
        · rcases List.mem_cons.mp h2 with rfl | h2
          · exact absurd h3 h
          · exact Or.inr ⟨kv2, h2, h3, h4⟩

theorem mem_exactStep (st : EngineState) (term : String) (acc : List Nat)
    (j : Nat) :
    (j ∈ (match st.indexedTerms.find? (fun kv => kv.1 == term) with
        | some kv => addAllIdx acc kv.2
        | none => acc)
      ↔ j ∈ acc
        ∨ ∃ kv, st.indexedTerms.find? (fun kv => kv.1 == term) = some kv
            ∧ j ∈ kv.2) := by
  cases hf : st.indexedTerms.find? (fun kv => kv.1 == term) with
  | none => simp
  | some kv =>
    rw [mem_addAllIdx]
    constructor
    · rintro (hj | hj)
      · exact Or.inl hj
      · exact Or.inr ⟨kv, rfl, hj⟩
    · rintro (hj | ⟨kv2, h2, hj⟩)
      · exact Or.inl hj
      · cases h2
        exact Or.inr hj

theorem mem_termStep (st : EngineState) (term : String) (acc : List Nat)
    (j : Nat) :
    (j ∈ st.indexedTerms.foldl (fun a kv =>
        if strIncludes kv.1 term then addAllIdx a kv.2 else a)
        (match st.indexedTerms.find? (fun kv => kv.1 == term) with
          | some kv => addAllIdx acc kv.2
          | none => acc)
      ↔ j ∈ acc
        ∨ ∃ kv, kv ∈ st.indexedTerms ∧ strIncludes kv.1 term = true
            ∧ j ∈ kv.2) := by
  rw [mem_substrLoop term j st.indexedTerms, mem_exactStep]
  constructor
  · rintro ((hj | ⟨kv, hf, hjkv⟩) | hex)
    · exact Or.inl hj
    · refine Or.inr ⟨kv, List.mem_of_find?_eq_some hf, ?_, hjkv⟩
      have hkv : kv.1 = term := by simpa using List.find?_some hf
      rw [hkv]; exact strIncludes_self term
    · exact Or.inr hex
  · rintro (hj | hex)
    · exact Or.inl (Or.inl hj)
    · exact Or.inr hex

theorem mem_queryFold (st : EngineState) (j : Nat) :
    ∀ (terms : List String) (acc : List Nat),
    (j ∈ terms.foldl (fun acc term =>
        st.indexedTerms.foldl (fun a kv =>
          if strIncludes kv.1 term then addAllIdx a kv.2 else a)
          (match st.indexedTerms.find? (fun kv => kv.1 == term) with
            | some kv => addAllIdx acc kv.2
            | none => acc)) acc
      ↔ j ∈ acc
        ∨ ∃ t, t ∈ terms ∧ ∃ kv, kv ∈ st.indexedTerms
            ∧ strIncludes kv.1 t = true ∧ j ∈ kv.2) := by
  intro terms
  induction terms with
  | nil => intro acc; simp
  | cons t rest ih =>
    intro acc
    rw [List.foldl_cons, ih, mem_termStep]
    constructor
    · rintro ((hj | hex) | ⟨t2, ht2, hex2⟩)
      · exact Or.inl hj
      · exact Or.inr ⟨t, List.mem_cons_self _ _, hex⟩
      · exact Or.inr ⟨t2, List.mem_cons_of_mem _ ht2, hex2⟩
    · rintro (hj | ⟨t2, ht2, hex2⟩)
      · exact Or.inl (Or.inl hj)
      · rcases List.mem_cons.mp ht2 with rfl | ht2
        · exact Or.inl (Or.inr hex2)
        · exact Or.inr ⟨t2, ht2, hex2⟩

theorem mem_performTextSearch (st : EngineState) (q : String)
    (h : extractTerms (toLowerStr q) ≠ []) (j : Nat) :
    (j ∈ performTextSearch st q ↔
      ∃ t, t ∈ extractTerms (toLowerStr q) ∧ ∃ kv, kv ∈ st.indexedTerms
        ∧ strIncludes kv.1 t = true ∧ j ∈ kv.2) := by
  have hdef : performTextSearch st q
      = (extractTerms (toLowerStr q)).foldl (fun acc term =>
          st.indexedTerms.foldl (fun a kv =>
            if strIncludes kv.1 term then addAllIdx a kv.2 else a)
            (match st.indexedTerms.find? (fun kv => kv.1 == term) with
              | some kv => addAllIdx acc kv.2
              | none => acc)) [] := by
    simp only [performTextSearch]
    rw [if_neg h]
  rw [hdef, mem_queryFold]
  simp

/-!
The index-bounds invariant.
-/

theorem addPosition_bounded {m : List (String × List Nat)} {term : String}
    {i n : Nat} (hm : ∀ kv ∈ m, ∀ j ∈ kv.2, j < n) (hi : i < n) :
    ∀ kv ∈ addPosition m term i, ∀ j ∈ kv.2, j < n := by
  unfold addPosition
  by_cases h : m.any (fun kv => kv.1 == term)
  · rw [if_pos h]
    intro kv hkv j hj
    obtain ⟨kv0, hkv0, rfl⟩ := List.mem_map.mp hkv
    by_cases he : (kv0.1 == term) = true
    · rw [if_pos he] at hj
      dsimp only at hj
      by_cases hc : kv0.2.contains i
      · rw [if_pos hc] at hj
        exact hm kv0 hkv0 j hj
      · rw [if_neg hc] at hj
        rcases List.mem_append.mp hj with hj | hj
        · exact hm kv0 hkv0 j hj
        · rw [List.mem_singleton.mp hj]; exact hi
    · rw [if_neg he] at hj
      exact hm kv0 hkv0 j hj
  · rw [if_neg h]
    intro kv hkv j hj
    rcases List.mem_append.mp hkv with hkv | hkv
    · exact hm kv hkv j hj
    · rw [List.mem_singleton.mp hkv] at hj
      rw [List.mem_singleton.mp hj]
      exact hi

theorem foldl_addPosition_bounded {i n : Nat} (hi : i < n) :
    ∀ (ts : List String) (m : List (String × List Nat)),
      (∀ kv ∈ m, ∀ j ∈ kv.2, j < n) →
      ∀ kv ∈ ts.foldl (fun m t => addPosition m t i) m, ∀ j ∈ kv.2, j < n := by
  intro ts
  induction ts with
  | nil => intro m hm; exact hm
  | cons t rest ih =>
    intro m hm
    rw [List.foldl_cons]
    exact ih _ (addPosition_bounded hm hi)

theorem enum_fst_lt (l : List α) : ∀ p ∈ l.enum, p.1 < l.length := by
  intro p hp
  rw [List.enum_eq_zip_range] at hp
  exact List.mem_range.mp (List.of_mem_zip hp).1

theorem foldl_indexEntry_bounded (n : Nat) :
    ∀ (ps : List (Nat × LogEntry)) (m : List (String × List Nat)),
      (∀ p ∈ ps, p.1 < n) →
      (∀ kv ∈ m, ∀ j ∈ kv.2, j < n) →
      ∀ kv ∈ ps.foldl (fun m p => indexEntry m p.2 p.1) m,
        ∀ j ∈ kv.2, j < n := by
  intro ps
  induction ps with
  | nil => intro m _ hm; exact hm
  | cons p rest ih =>
    intro m hps hm
    rw [List.foldl_cons]
    exact ih _ (fun p2 hp2 => hps p2 (List.mem_cons_of_mem _ hp2))
      (foldl_addPosition_bounded (hps p (List.mem_cons_self _ _)) _ m hm)

theorem indexEntries_bounded (st0 : EngineState) (E : List LogEntry) :
    IndexInBounds (indexEntries st0 E) :=
  fun kv hkv j hj =>
    foldl_indexEntry_bounded E.length E.enum [] (enum_fst_lt E)
      (fun kv h => by cases h) kv hkv j hj

theorem performTextSearch_bounded (st : EngineState)
    (hb : IndexInBounds st) (q : String) :
    ∀ j ∈ performTextSearch st q, j < st.entries.length := by
  intro j hj
  by_cases h : extractTerms (toLowerStr q) = []
  · rw [show performTextSearch st q = List.range st.entries.length by
      simp only [performTextSearch]; rw [if_pos h]] at hj
    exact List.mem_range.mp hj
  · obtain ⟨t, _, kv, hkv, _, hjkv⟩ := (mem_performTextSearch st q h j).mp hj
    exact hb kv hkv j hjkv

/-!
Comparator facts for sort claims.
-/

theorem getField_unknown (e : LogEntry) (name : String)
    (h : name ∉ sortableFields) : getField e name = none := by
  simp only [sortableFields, List.mem_cons, List.not_mem_nil, or_false] at h
  push_neg at h
  obtain ⟨h1, h2, h3, h4, h5, h6, h7, h8⟩ := h
  simp [getField, h1, h2, h3, h4, h5, h6, h7, h8]

theorem jsCompareBy_unknown (name : String)
    (h : ∀ e : LogEntry, getField e name = none) (m : Int)
    (a b : LogEntry) : jsCompareBy name m a b = 0 := by
  unfold jsCompareBy
  rw [h a, h b]
  simp [localeCompareInt_self]

theorem jsSlice_zero_end (l : List α) (s : Int) : jsSlice l s 0 = [] := by
  simp only [jsSlice]
  rw [if_neg (show ¬ (0 : Int) < 0 by omega),
    min_eq_left (by positivity : (0 : Int) ≤ (l.length : Int))]
  have hs' : 0 ≤ (if s < 0 then max ((l.length : Int) + s) 0
      else min s (l.length : Int)) := by
    by_cases hcase : s < 0
    · rw [if_pos hcase]; exact le_max_right _ _
    · rw [if_neg hcase]; exact le_min (by omega) (by positivity)
  rw [Int.toNat_of_nonpos (by omega), List.take_zero]

/-!
The claims about text-search semantics, sorting, filters and the parser.
-/

/-- C3 counterexample: the claim quantifies over every non-empty query
text, but the query `"a"` (non-empty, yet producing no tokens of length
≥ 2) makes `performTextSearch` return every entry, while the claimed
per-token union is empty — the single indexed entry here has no indexed
term containing `"a"` at all, so the union is empty under any reading of
"query token". -/
theorem text_search_short_token_counterexample :
    performTextSearch (indexEntries emptyEngine [noAEntry]) "a" = [0]
    ∧ extractTerms (toLowerStr "a") = []
    ∧ (∀ kv ∈ (indexEntries emptyEngine [noAEntry]).indexedTerms,
        strIncludes kv.1 "a" = false)
    ∧ ("a" : String) ≠ "" :=
  ⟨by decide, by decide, by decide, by decide⟩

/-- C3 (amended): for every query whose tokenization (the same
tokenizer as indexing: split on non-word characters, keep length ≥ 2,
lower-case) yields at least one token, an entry position is returned by
`performTextSearch` iff some query token matches it — either as an entry
indexed under exactly that token, or under an indexed token containing
the query token as a substring — i.e. OR semantics across tokens; a
non-empty query yielding no tokens instead returns every entry. -/
theorem text_search_or_union_semantics (st : EngineState) (q : String) :
    (extractTerms (toLowerStr q) = [] →
      performTextSearch st q = List.range st.entries.length)
    ∧ (extractTerms (toLowerStr q) ≠ [] → ∀ j : Nat,
        (j ∈ performTextSearch st q ↔
          ∃ t, t ∈ extractTerms (toLowerStr q) ∧
            ((∃ kv, kv ∈ st.indexedTerms ∧ kv.1 = t ∧ j ∈ kv.2) ∨
             (∃ kv, kv ∈ st.indexedTerms ∧ strIncludes kv.1 t = true
                ∧ j ∈ kv.2)))) := by
  constructor
  · intro h
    simp only [performTextSearch]
    rw [if_pos h]
  · intro h j
    rw [mem_performTextSearch st q h j]
    constructor
    · rintro ⟨t, ht, kv, hkv, hinc, hj⟩
      exact ⟨t, ht, Or.inr ⟨kv, hkv, hinc, hj⟩⟩
    · rintro ⟨t, ht, (⟨kv, hkv, heq, hj⟩ | ⟨kv, hkv, hinc, hj⟩)⟩
      · exact ⟨t, ht, kv, hkv, by rw [heq]; exact strIncludes_self t, hj⟩
      · exact ⟨t, ht, kv, hkv, hinc, hj⟩

/-- Witness for C3: the two-token query `"error database"` returns both
the entry matching only `error` and the entry matching only `database`. -/
theorem text_search_or_union_semantics_witness :
    (0 ∈ performTextSearch (indexEntries emptyEngine [qEntryErr, qEntryDb])
        "error database")
    ∧ (1 ∈ performTextSearch (indexEntries emptyEngine [qEntryErr, qEntryDb])
        "error database") := by
  constructor
  · exact ((text_search_or_union_semantics
      (indexEntries emptyEngine [qEntryErr, qEntryDb]) "error database").2
        (by decide) 0).mpr (by decide)
  · exact ((text_search_or_union_semantics
      (indexEntries emptyEngine [qEntryErr, qEntryDb]) "error database").2
        (by decide) 1).mpr (by decide)

/-- C4: `search` silently ignores a supplied `sourceFile` filter — the
option is destructured but never handed to `applyFilters`, which tests
only level and dates.  The indexed entry's `sourceFile` does not contain
the filter value `"payment"`, yet the entry is returned.  The README
advertises source-file filtering, so the claim reflects the intent and
the omission is a code bug. -/
theorem search_ignores_sourceFile_filter :
    (search (indexEntries emptyEngine [srcEntry]) ""
        { sourceFile := some "payment" }).entries = [srcEntry]
    ∧ strIncludes srcEntry.sourceFile "payment" = false :=
  ⟨by decide, by decide⟩

theorem parseLogLine_provenance (env : ParseEnv) (line path : String)
    (n : Nat) :
    (parseLogLine env line path n).sourceFile = path
    ∧ (parseLogLine env line path n).raw = line
    ∧ (parseLogLine env line path n).lineNumber = n := by
  unfold parseLogLine
  cases env.jsonParse line with
  | none => exact ⟨rfl, rfl, rfl⟩
  | some parsed =>
    dsimp only
    by_cases ht : (truthyStr parsed.level && truthyStr parsed.message
        && truthyStr parsed.timestamp) = true
    · rw [if_pos ht]; exact ⟨rfl, rfl, rfl⟩
    · rw [if_neg ht]; exact ⟨rfl, rfl, rfl⟩

/-- C5: `parseLogContent` is total for every content string, path and
JSON/date oracle: blank (whitespace-only) lines are skipped before
parsing, every remaining line yields exactly one entry (the entry list is
as long as the non-blank line list, and every entry records its source
line in `raw`), and any line whose JSON parse throws (the oracle's `none`
branch) or lacks a truthy level/message/timestamp becomes the fallback
entry with `isStructured = false` rather than being dropped or raising.
Level, message and timestamp are total (never null) by construction, as
in the code every branch assigns them. -/
theorem parser_totality (env : ParseEnv) (content path : String) :
    (parseLogContent env content path).length
        = ((splitOnChar '\n' content).filter
            (fun line => jsTrim line != "")).length
    ∧ (∀ line n, env.jsonParse line = none →
        parseLogLine env line path n = createFallbackEntry env line path n
        ∧ (parseLogLine env line path n).isStructured = false)
    ∧ (∀ line n parsed, env.jsonParse line = some parsed →
        (truthyStr parsed.level && truthyStr parsed.message
          && truthyStr parsed.timestamp) = false →
        parseLogLine env line path n = createFallbackEntry env line path n
        ∧ (parseLogLine env line path n).isStructured = false)
    ∧ (∀ e ∈ parseLogContent env content path,
        e.sourceFile = path ∧ jsTrim e.raw ≠ "" ∧ 1 ≤ e.lineNumber) := by
  refine ⟨?_, ?_, ?_, ?_⟩
  · unfold parseLogContent
    by_cases h : content = ""
    · rw [if_pos h, h]
      decide
    · rw [if_neg h]
      simp [List.length_map, List.enum_length]
  · intro line n h
    constructor
    · unfold parseLogLine
      rw [h]
    · unfold parseLogLine
      rw [h]
      rfl
  · intro line n parsed h hfalse
    constructor
    · unfold parseLogLine
      rw [h]
      dsimp only
      rw [if_neg (by simp [hfalse])]
    · unfold parseLogLine
      rw [h]
      dsimp only
      rw [if_neg (by simp [hfalse])]
      rfl
  · intro e he
    unfold parseLogContent at he
    by_cases h : content = ""
    · rw [if_pos h] at he
      cases he
    · rw [if_neg h] at he
      obtain ⟨⟨i, line⟩, hmem, rfl⟩ := List.mem_map.mp he
      have hline : line ∈ (splitOnChar '\n' content).filter
          (fun l => jsTrim l != "") := by
        have hz := List.of_mem_zip (by
          rw [← List.enum_eq_zip_range]; exact hmem)
        exact hz.2
      have hne : jsTrim line ≠ "" := by
        simpa using (List.mem_filter.mp hline).2
      have hprov := parseLogLine_provenance env line path (i + 1)
      refine ⟨hprov.1, ?_, ?_⟩
      · rw [hprov.2.1]; exact hne
      · rw [hprov.2.2]; omega

/-- Witness for C5: a non-JSON line yields a fallback entry; a content
with a blank middle line yields exactly two entries. -/
theorem parser_totality_witness :
    (parseLogLine envW "notjson" "p/debug.log" 1).isStructured = false
    ∧ (parseLogContent envW "one\n\ntwo" "p/debug.log").length = 2 := by
  constructor
  · exact ((parser_totality envW "one\n\ntwo" "p/debug.log").2.1
      "notjson" 1 rfl).2
  · rw [(parser_totality envW "one\n\ntwo" "p/debug.log").1]
    decide

/-- C6 counterexample: the claim says the fallback level is inferred
from the source file NAME, but the code tests the whole path
(`filePath.includes`): for the file named `debug.log` inside a directory
called `errors/`, the code yields `error` although the name contains
`debug` and not `error` (the claim's rule, `claimedNameBasedLevel`,
yields `debug`). -/
theorem fallback_level_path_counterexample :
    inferLogLevel "hello world" "errors/debug.log" = "error"
    ∧ claimedNameBasedLevel "hello world" "errors/debug.log" = "debug"
    ∧ basenameOf "errors/debug.log" = "debug.log" :=
  ⟨by decide, by decide, by decide⟩

/-- C6 (amended): the fallback level is inferred first from the full
source file PATH (path containing `error` → `error`, else path
containing `debug` → `debug`), and only if both fail from the line
content with the precedence error/err, warn, info, debug, else
`unknown`; `createFallbackEntry` uses exactly this inference.  The
claim's `debug.log` scenario still yields `debug` (see the witness),
since there the path is just the name. -/
theorem fallback_level_inference_precedence
    (env : ParseEnv) (line path : String) (n : Nat) :
    (createFallbackEntry env line path n).level = inferLogLevel line path
    ∧ (strIncludes path "error" = true → inferLogLevel line path = "error")
    ∧ (strIncludes path "error" = false → strIncludes path "debug" = true →
        inferLogLevel line path = "debug")
    ∧ (strIncludes path "error" = false → strIncludes path "debug" = false →
        ((strIncludes (toLowerStr line) "error"
            || strIncludes (toLowerStr line) "err") = true →
          inferLogLevel line path = "error")
        ∧ ((strIncludes (toLowerStr line) "error"
              || strIncludes (toLowerStr line) "err") = false →
            strIncludes (toLowerStr line) "warn" = true →
            inferLogLevel line path = "warning")
        ∧ ((strIncludes (toLowerStr line) "error"
              || strIncludes (toLowerStr line) "err") = false →
            strIncludes (toLowerStr line) "warn" = false →
            strIncludes (toLowerStr line) "info" = true →
            inferLogLevel line path = "info")
        ∧ ((strIncludes (toLowerStr line) "error"
              || strIncludes (toLowerStr line) "err") = false →
            strIncludes (toLowerStr line) "warn" = false →
            strIncludes (toLowerStr line) "info" = false →
            strIncludes (toLowerStr line) "debug" = true →
            inferLogLevel line path = "debug")
        ∧ ((strIncludes (toLowerStr line) "error"
              || strIncludes (toLowerStr line) "err") = false →
            strIncludes (toLowerStr line) "warn" = false →
            strIncludes (toLowerStr line) "info" = false →
            strIncludes (toLowerStr line) "debug" = false →
            inferLogLevel line path = "unknown")) := by
  refine ⟨rfl, ?_, ?_, ?_⟩
  · intro h
    simp [inferLogLevel, h]
  · intro h1 h2
    simp [inferLogLevel, h1, h2]
  · intro h1 h2
    refine ⟨fun hc => by simp [inferLogLevel, h1, h2, hc],
      fun hc hw => ?_, fun hc hw hi => ?_, fun hc hw hi hd => ?_,
      fun hc hw hi hd => ?_⟩
    · rcases Bool.or_eq_false_iff.mp hc with ⟨hc1, hc2⟩
      simp [inferLogLevel, h1, h2, hc1, hc2, hw]
    · rcases Bool.or_eq_false_iff.mp hc with ⟨hc1, hc2⟩
      simp [inferLogLevel, h1, h2, hc1, hc2, hw, hi]
    · rcases Bool.or_eq_false_iff.mp hc with ⟨hc1, hc2⟩
      simp [inferLogLevel, h1, h2, hc1, hc2, hw, hi, hd]
    · rcases Bool.or_eq_false_iff.mp hc with ⟨hc1, hc2⟩
      simp [inferLogLevel, h1, h2, hc1, hc2, hw, hi, hd]

/-- Witness for C6: the claim's own scenario — the plain-text `INFO`
line in a file named (and here pathed) `debug.log` resolves to `debug`,
filename inference taking precedence over content. -/
theorem fallback_level_inference_precedence_witness :
    (createFallbackEntry envW "2025-01-20 10:00:00 INFO User logged in"
      "debug.log" 1).level = "debug" := by
  have h := fallback_level_inference_precedence envW
    "2025-01-20 10:00:00 INFO User logged in" "debug.log" 1
  rw [h.1]
  exact h.2.2.1 (by decide) (by decide)

/-- C7 counterexample: invalid parameters are not clamped — page 0
yields an empty page while page 1 yields the first entry, and sorting on
an unknown field leaves the list untouched instead of sorting by
timestamp. -/
theorem invalid_params_clamping_counterexample :
    ((search (indexEntries emptyEngine [tsLate, tsEarly]) ""
        { page := 0, pageSize := 1 }).entries = []
      ∧ (search (indexEntries emptyEngine [tsLate, tsEarly]) ""
        { page := 1, pageSize := 1 }).entries = [tsLate])
    ∧ (sortResults [tsLate, tsEarly] "bogus" "asc" = [tsLate, tsEarly]
      ∧ sortResults [tsLate, tsEarly] "timestamp" "asc"
          = [tsEarly, tsLate]) :=
  ⟨⟨by decide, by decide⟩, ⟨by decide, by decide⟩⟩

/-- C7 (amended): invalid parameters never fail the query, but they are
not clamped to defaults: `page = 0` always yields an empty entries list
(the slice is computed from a negative start index and end 0) while
`totalCount` is still the full filtered count, and an unknown sort field
makes the comparator constantly 0, leaving entries in their pre-sort
order rather than sorting by the default `timestamp` field. -/
theorem invalid_query_params_not_clamped (st : EngineState) (q : String)
    (opts : SearchOptions) (_hps : 1 ≤ opts.pageSize) :
    ((search st q { opts with page := 0 }).entries = []
      ∧ (search st q { opts with page := 0 }).pagination.totalCount
          = (searchResults st q opts).length)
    ∧ (∀ (l : List LogEntry) (name ord : String), name ∉ sortableFields →
        sortResults l name ord = l) := by
  constructor
  · constructor
    · have he : (search st q { opts with page := 0 }).entries
          = jsSlice (searchResults st q opts)
              (((0 : Int) - 1) * (opts.pageSize : Int))
              (min (((0 : Int) - 1) * (opts.pageSize : Int) + opts.pageSize)
                ((searchResults st q opts).length : Int)) := rfl
      rw [he,
        show ((0 : Int) - 1) * (opts.pageSize : Int) + opts.pageSize
          = 0 by ring,
        min_eq_left (by positivity :
          (0 : Int) ≤ ((searchResults st q opts).length : Int))]
      exact jsSlice_zero_end _ _
    · rfl
  · intro l name ord h
    unfold sortResults
    exact jsStableSort_of_all_zero _
      (fun a b => jsCompareBy_unknown name
        (fun e => getField_unknown e name h) _ a b) l

/-- Witness for C7: concrete page-0 emptiness and identity sort on an
unknown field. -/
theorem invalid_query_params_not_clamped_witness :
    (search (indexEntries emptyEngine [wEntry]) ""
      { page := 0, pageSize := 1 }).entries = []
    ∧ sortResults [tsLate, tsEarly] "bogus" "asc" = [tsLate, tsEarly] := by
  constructor
  · exact (invalid_query_params_not_clamped (indexEntries emptyEngine
      [wEntry]) "" { page := 0, pageSize := 1 } (le_refl 1)).1.1
  · exact (invalid_query_params_not_clamped (indexEntries emptyEngine
      [wEntry]) "" { page := 0, pageSize := 1 } (le_refl 1)).2
      [tsLate, tsEarly] "bogus" "asc" (by decide)

/-- C8 counterexample: two entries with equal timestamps are indexed in
snapshot order `[zebraEntry, appleEntry]`, but the text query
`"apple zebra"` enumerates matches in match order `[1, 0]`, and the
(stable) timestamp sort keeps that order for the tied keys — the result
page shows `appleEntry` before `zebraEntry`, not snapshot order. -/
theorem sort_ties_match_order_counterexample :
    (indexEntries emptyEngine [zebraEntry, appleEntry]).entries
        = [zebraEntry, appleEntry]
    ∧ zebraEntry.timestamp = appleEntry.timestamp
    ∧ zebraEntry ≠ appleEntry
    ∧ (search (indexEntries emptyEngine [zebraEntry, appleEntry])
        "apple zebra" {}).entries = [appleEntry, zebraEntry] :=
  ⟨by decide, by decide, by decide, by decide⟩

/-- C8 (amended): the sort is stable with respect to its INPUT order:
entries whose sort-key values are equal keep the relative order of the
list being sorted (for every field and order), and when the query text
is empty that list is the snapshot (insertion) order filtered — so ties
then appear in snapshot order; a non-empty text query, however, feeds
the sort in match-enumeration order, which ties then retain. -/
theorem sort_stable_wrt_presort_order (st : EngineState) (q : String)
    (opts : SearchOptions) (v : Option JsVal) (hq : jsTrim q = "") :
    ((searchResults st q opts).filter
        (fun e => decide (getField e opts.sortBy = v))
      = (applyFilters st.entries
          ⟨opts.level, opts.startDate, opts.endDate⟩).filter
          (fun e => decide (getField e opts.sortBy = v)))
    ∧ (∀ (l : List LogEntry) (sb ord : String),
        (sortResults l sb ord).filter (fun e => decide (getField e sb = v))
          = l.filter (fun e => decide (getField e sb = v))) := by
  have key : ∀ (l : List LogEntry) (sb ord : String),
      (sortResults l sb ord).filter (fun e => decide (getField e sb = v))
        = l.filter (fun e => decide (getField e sb = v)) := by
    intro l sb ord
    unfold sortResults
    apply jsStableSort_filter
    intro a b ha hb
    have ha' : getField a sb = v := of_decide_eq_true ha
    have hb' : getField b sb = v := of_decide_eq_true hb
    rw [jsCompareBy_self_zero sb _ a b (ha'.trans hb'.symm)]
  refine ⟨?_, key⟩
  rw [searchResults_empty_query st q opts hq]
  exact key _ opts.sortBy opts.sortOrder

/-- Witness for C8: tied timestamps of an empty-query search appear in
snapshot order. -/
theorem sort_stable_wrt_presort_order_witness :
    (searchResults (indexEntries emptyEngine [zebraEntry, appleEntry])
        "" {}).filter
      (fun e => decide (getField e ("timestamp" : String)
        = some (JsVal.dateV 100)))
      = [zebraEntry, appleEntry] :=
  ((sort_stable_wrt_presort_order
    (indexEntries emptyEngine [zebraEntry, appleEntry]) "" {}
    (some (JsVal.dateV 100)) (by decide)).1).trans (by decide)

/-- C9: two directories may each contain a log file with the same name;
`generateEntryId` keys on the basename only, so one refresh aggregating
`a/error.log` and `b/error.log` (one line each) produces two distinct
entries both with id `"error.log:1"` — the code violates its own
"unique ID" contract (and `GET /api/entry/:id` can then only ever find
the first). -/
theorem entry_id_collision_across_directories :
    loadLogs envW [("a/error.log", "boom"), ("b/error.log", "boom")]
      = [createFallbackEntry envW "boom" "a/error.log" 1,
         createFallbackEntry envW "boom" "b/error.log" 1]
    ∧ (createFallbackEntry envW "boom" "a/error.log" 1).id = "error.log:1"
    ∧ (createFallbackEntry envW "boom" "b/error.log" 1).id = "error.log:1"
    ∧ createFallbackEntry envW "boom" "a/error.log" 1
        ≠ createFallbackEntry envW "boom" "b/error.log" 1 :=
  ⟨by decide, by decide, by decide, by decide⟩

/-- C10: after any sequence of `indexEntries`/`clearIndex` operations on
a fresh engine, every position recorded in the inverted index is a valid
index into the entry snapshot, and consequently every position returned
by `performTextSearch` is in bounds — `search` never places an undefined
entry in a result page. -/
theorem index_positions_always_in_bounds (ops : List EngineOp)
    (q : String) :
    IndexInBounds (runOps ops)
    ∧ ∀ j ∈ performTextSearch (runOps ops) q,
        j < (runOps ops).entries.length := by
  have hb : IndexInBounds (runOps ops) := by
    have key : ∀ (ops2 : List EngineOp) (st : EngineState),
        IndexInBounds st → IndexInBounds (ops2.foldl applyOp st) := by
      intro ops2
      induction ops2 with
      | nil => intro st h; exact h
      | cons op rest ih =>
        intro st h
        rw [List.foldl_cons]
        refine ih _ ?_
        cases op with
        | indexOp l => exact indexEntries_bounded st l
        | clearOp => intro kv hkv; cases hkv
    exact key ops emptyEngine (fun kv hkv => by cases hkv)
  exact ⟨hb, performTextSearch_bounded _ hb q⟩

/-- Witness for C10: a concrete query hit on a one-entry engine is in
bounds. -/
theorem index_positions_always_in_bounds_witness :
    0 < (runOps [EngineOp.indexOp [wEntry]]).entries.length :=
  (index_positions_always_in_bounds [EngineOp.indexOp [wEntry]] "hello").2
    0 (by decide)

end Logfather
